import Mathlib

/-!
Shallow embedding of the `android-introspection` core
(`src/web_app/wasm/source/apk/apk.cpp` and
`src/web_app/wasm/source/apk/zip_archiver.cpp`), together with theorems
settling the specification claims about it.

Conventions: machine bytes are modelled as `Nat`; C++ exceptions become
`Except` errors; external collaborators (the binary-XML decoder, the
package member enumerator, the filesystem, minizip cursors) are modelled
as oracle data carried in the state, with behaviour taken from the
specification where the collaborator's code is not part of the sources.
-/

/- ===================== Manifest / binary XML part ===================== -/

/-- `ANDROID_MANIFEST` constant from apk.cpp. -/
def ANDROID_MANIFEST : String := "AndroidManifest.xml"

/-- `ANDROID_MANIFEST_TAG_APPLICATION` constant from apk.cpp. -/
def ANDROID_MANIFEST_TAG_APPLICATION : String := "application"

/-- One decoded element of the compiled (binary) XML document: the four
variants `StartXmlTagElement`, `EndXmlTagElement`, `CDataTagElement` and
`InvalidXmlTagElement` dispatched to a `BinaryXmlVisitor`. -/
inductive XmlElement where
  | startTag (tag : String)
  | endTag (tag : String)
  | cdata (tag : String)
  | invalid (error : String)
deriving DecidableEq

/-- Whether an element is the `InvalidXmlTagElement` variant. -/
def XmlElement.isInvalid : XmlElement → Bool
  | .invalid _ => true
  | _ => false

/-- The two exception types thrown by `Apk::ApkImpl::makeDebuggable`
(`MissingAndroidManifestException` / `MalformedAndroidManifestException`),
each constructed with the apk path. -/
inductive ApkError where
  | missingAndroidManifest (apkPath : String)
  | malformedAndroidManifest (apkPath : String)
deriving DecidableEq

/-- The visitor defined inside `makeDebuggable` (apk.cpp lines 67-98).
Its only field is the captured `apkPath_` reference; all of its `visit`
overloads are `const` and the struct has no other members, so it carries
no mutable observation state. -/
structure MyBinaryXmlVisitor where
  apkPath : String
deriving DecidableEq

/-- Dispatch of one element to `MyBinaryXmlVisitor`: start-tag, end-tag and
cdata elements are only logged (the start/end overloads compare the tag with
`ANDROID_MANIFEST_TAG_APPLICATION` but only emit a log line on a match);
the invalid overload throws `MalformedAndroidManifestException(apkPath_)`. -/
def MyBinaryXmlVisitor.visit (v : MyBinaryXmlVisitor) (e : XmlElement) :
    Except ApkError Unit :=
  match e with
  | .invalid _ => .error (.malformedAndroidManifest v.apkPath)
  | _ => .ok ()

/-- Modelled from the spec: `BinaryXml::traverseElements` (the binary-tag
traversal engine of spec section 4.3; its source `binary_xml.cpp` is not among
the provided sources). It consumes the decoded element sequence in order and
dispatches each element to the visitor; a visitor exception aborts the
traversal and propagates. -/
def traverseElements (v : MyBinaryXmlVisitor) : List XmlElement → Except ApkError Unit
  | [] => .ok ()
  | e :: rest =>
    match v.visit e with
    | .error err => .error err
    | .ok _ => traverseElements v rest

/-- Modelled from the spec: `BinaryXml::hasElement` (spec section 4.3; source
not provided) — "scans for at least one start-tag or end-tag whose name
equals `tagName`". -/
def hasElement (els : List XmlElement) (tagName : String) : Bool :=
  els.any fun e =>
    match e with
    | .startTag t => t == tagName
    | .endTag t => t == tagName
    | _ => false

/-- State of one apk package as observed by `Apk::ApkImpl`: the apk path, the
member listing returned by `ApkParser::getFiles`, the bytes returned by
`ApkParser::getFileContents(ANDROID_MANIFEST)` (the `ApkParser` is the
external package member enumerator of spec section 6), and the element
sequence the external binary-XML decoder produces from those bytes
(spec section 6: the decoder is an opaque collaborator, so its output is
carried directly). -/
structure ApkState where
  apkPath : String
  files : List String
  manifestContents : List Nat
  decodedElements : List XmlElement

/-- `Apk::ApkImpl::makeDebuggable` (apk.cpp lines 46-101): check the listing
for the manifest member, check the extracted contents are non-empty, run the
`hasElement` existence probe for the application tag, then run the full
traversal with `MyBinaryXmlVisitor`. -/
def makeDebuggable (s : ApkState) : Except ApkError Unit :=
  let hasAndroidManifest := s.files.contains ANDROID_MANIFEST
  if !hasAndroidManifest then
    .error (.missingAndroidManifest s.apkPath)
  else if s.manifestContents.isEmpty then
    .error (.missingAndroidManifest s.apkPath)
  else if !(hasElement s.decodedElements ANDROID_MANIFEST_TAG_APPLICATION) then
    .error (.malformedAndroidManifest s.apkPath)
  else
    traverseElements ⟨s.apkPath⟩ s.decodedElements

/-- `Apk::ApkImpl::isDebuggable` (apk.cpp line 103): `return false;`. -/
def isDebuggable (_ : ApkState) : Bool := false

/-- Modelled from the spec: the observation spec section 4.4 step 4 says the
traversal visitor records — whether a start-tag and an end-tag whose name
equals the application declaration were both observed in the element
sequence. -/
def bothApplicationTagsObserved (els : List XmlElement) : Bool :=
  (els.any fun e =>
    match e with
    | .startTag t => t == ANDROID_MANIFEST_TAG_APPLICATION
    | _ => false)
  && (els.any fun e =>
    match e with
    | .endTag t => t == ANDROID_MANIFEST_TAG_APPLICATION
    | _ => false)

/-- Helper: the traversal with `MyBinaryXmlVisitor` errors exactly when the
element sequence holds an invalid element, and the outcome depends on
nothing else. -/
theorem traverseElements_eq (v : MyBinaryXmlVisitor) (els : List XmlElement) :
    traverseElements v els =
      if els.any XmlElement.isInvalid then
        .error (.malformedAndroidManifest v.apkPath)
      else .ok () := by
  induction els with
  | nil => simp [traverseElements]
  | cons e rest ih =>
    cases e <;>
      simp [traverseElements, MyBinaryXmlVisitor.visit, XmlElement.isInvalid,
        ih, Except.bind]

/- ========================= Zip archiver part ========================= -/

/-- One archive member as seen through the minizip cursor: its path inside the
zip, the `uncompressed_size` field of its `unz_file_info` record (a 32-bit
`uLong` on the wasm target, so the later `uint32_t` casts are the identity and
are omitted), and the bytes `unzReadCurrentFile` can actually deliver for it
(shorter than `uncompressedSize` exactly when the stored member is
truncated/corrupt). -/
structure ZipEntry where
  name : String
  uncompressedSize : Nat
  data : List Nat
deriving DecidableEq

/-- A container at a `zipPath_`: `none` when the path cannot be opened for
reading (`ScopedUnzOpenFile` yields a null handle), otherwise the ordered
entry list its central directory holds. -/
abbrev Container := Option (List ZipEntry)

/-- `getAllEntriesInZipFile` (zip_archiver.cpp lines 66-86): returns the empty
list when the zip cannot be opened, otherwise walks go-to-first/go-to-next
over all entries collecting (name, file info) pairs. (The per-entry
`unzGetCurrentFileInfo64` calls are modelled as succeeding, and member names
are modelled in full, unaffected by the 256-byte name buffer.) -/
def getAllEntriesInZipFile (c : Container) : List ZipEntry :=
  c.getD []

/-- The names of the listed entries, i.e. `listEntries` projected to names. -/
def listEntryNames (c : Container) : List String :=
  (getAllEntriesInZipFile c).map (·.name)

/-- All zip-archiver failures are thrown as `std::logic_error` values carrying
a message string (zip_archiver.cpp); the spec's named error kinds correspond
to the distinct messages. -/
inductive ZipError where
  | logicError (message : String)
deriving DecidableEq

/-- The spec's `InvalidDestinationError` (`throw` at zip_archiver.cpp
lines 115 and 128). -/
def invalidDestinationError : ZipError :=
  .logicError "path must be a directory or must not exist"

/-- The spec's `MemberNotFoundError` (`throw` at zip_archiver.cpp
lines 134 and 140). -/
def memberNotFoundError : ZipError :=
  .logicError "path does not exist in archive"

/-- The spec's `TruncatedReadError` (`throw` at zip_archiver.cpp line 153). -/
def truncatedReadError : ZipError :=
  .logicError "unable to read full file in archive"

/-- The `throw` at zip_archiver.cpp line 137 (re-opening the archive after the
listing succeeded). -/
def archiveDoesNotExistError : ZipError :=
  .logicError "archive does not exist"

/-- The `BUFSIZ` chunk size used by `writeStreamToOpenZipFile`. -/
def BUFSIZ : Nat := 1024

/-- An `std::istream` source as `ZipArchiver::add` observes it: the bytes the
stream will deliver, plus whether the stream enters a hard-error state (bad,
rather than plain eof) on the read that exhausts it. When `readError` is
true, the read that would deliver the final short chunk reports
`readCount < readBuffer.size() && !eof && !good`, so that chunk's bytes are
dropped by the copy loop. -/
structure InStream where
  data : List Nat
  readError : Bool
deriving DecidableEq

/-- The copy loop of `writeStreamToOpenZipFile` (zip_archiver.cpp lines
50-64), returning the bytes actually passed to `zipWriteInFileInZip`
(modelled as succeeding): full `BUFSIZ` chunks are written one by one; the
final short chunk is written when the stream hit eof, and dropped (with the
loop exiting on `ZIP_ERRNO`, which the caller ignores) when the stream hit a
read error. The fuel argument bounds the loop; `data.length` suffices since
every recursive step consumes `BUFSIZ > 0` bytes. -/
def writeChunksAux : Nat → List Nat → Bool → List Nat
  | 0, _, _ => []
  | fuel + 1, data, readError =>
    if data.length < BUFSIZ then
      if readError then [] else data
    else
      data.take BUFSIZ ++ writeChunksAux fuel (data.drop BUFSIZ) readError

/-- `writeStreamToOpenZipFile` (zip_archiver.cpp lines 50-64): the bytes of
the source stream that reach the open zip member. -/
def writeStreamToOpenZipFile (source : InStream) : List Nat :=
  writeChunksAux source.data.length source.data source.readError

/-- `ZipArchiver::add` (zip_archiver.cpp lines 90-98): open the container
(`APPEND_STATUS_CREATE` when the path does not exist, so a missing container
starts empty), open a new member write session under `path`
(`zipOpenNewFileInZip_64`, modelled as succeeding), and copy the stream. The
result of the copy loop is ignored; the session records as the entry's sizes
whatever was actually written. -/
def ZipArchiver.add (c : Container) (source : InStream) (path : String) :
    Container :=
  let zip := c.getD []
  let written := writeStreamToOpenZipFile source
  some (zip ++ [{ name := path, uncompressedSize := written.length, data := written }])

/-- `ZipArchiver::contains` (zip_archiver.cpp lines 100-108): false when the
container cannot be opened, else `unzLocateFile` with the default exact
case-sensitive comparison. -/
def ZipArchiver.contains (c : Container) (path : String) : Bool :=
  match c with
  | none => false
  | some entries => entries.any fun e => e.name == path

/-- The filesystem as the extraction code observes it: which paths are
directories, the regular files (path, contents; later writes shadow earlier
ones), and an environment oracle saying whether an `std::ofstream` opened at
a given path succeeds (false e.g. when a nested directory implied by the path
does not exist). -/
structure FS where
  dirs : List String
  files : List (String × List Nat)
  canOpen : String → Bool

/-- `std::filesystem::is_directory`. -/
def FS.isDirectory (fs : FS) (p : String) : Bool :=
  fs.dirs.contains p

/-- `std::filesystem::exists`: a directory or a regular file is present. -/
def FS.pathExists (fs : FS) (p : String) : Bool :=
  fs.dirs.contains p || fs.files.any fun f => f.1 == p

/-- A successful `std::ofstream` write-and-close of `b` at path `p`. -/
def FS.writeFile (fs : FS) (p : String) (b : List Nat) : FS :=
  { fs with files := (p, b) :: fs.files }

/-- The member-byte extraction core of `ZipArchiver::extract`
(zip_archiver.cpp lines 130-154), the spec's `extractMemberBytes`: list the
entries, find the first whose name equals `pathToExtract` (else throw), reopen
the archive (else throw; unreachable here since a failed open already gave an
empty listing), locate and open the member (`unzLocateFile`,
`unzGetCurrentFileInfo`, `unzOpenCurrentFile`, modelled as succeeding for a
listed member), allocate a buffer of exactly `uncompressed_size` bytes, and
read: `unzReadCurrentFile` delivers `min(requested, available)` bytes and any
shortfall against the declared size throws. -/
def extractMemberBytes (c : Container) (pathToExtract : String) :
    Except ZipError (List Nat) :=
  let entries := getAllEntriesInZipFile c
  match entries.find? (fun e => e.name == pathToExtract) with
  | none => .error memberNotFoundError
  | some entry =>
    match c with
    | none => .error archiveDoesNotExistError
    | some _ =>
      let fileContentsSize := entry.uncompressedSize
      let bytesRead := min fileContentsSize entry.data.length
      if bytesRead != fileContentsSize then .error truncatedReadError
      else .ok (entry.data.take fileContentsSize)

/-- Instrumented result of one extraction operation: the returned-or-thrown
outcome, the filesystem afterwards, how many `getAllEntriesInZipFile`
listing reads the operation performed, and the member names whose byte
extraction completed (in order). -/
structure ExtractOutcome where
  result : Except ZipError Unit
  fs : FS
  listReads : Nat
  extracted : List String

/-- `ZipArchiver::extract` (zip_archiver.cpp lines 123-160): validate the
destination (before any archive access), run the member-byte extraction core
(one listing read), then open `path / pathToExtract` (modelled as `"/"`
concatenation) and write the bytes; a destination file that fails to open or
write is silently ignored (the `ofstream` result is never checked). -/
def ZipArchiver.extract (c : Container) (fs : FS) (pathToExtract path : String) :
    ExtractOutcome :=
  let isPathValid := fs.isDirectory path || !fs.pathExists path
  if !isPathValid then
    ⟨.error invalidDestinationError, fs, 0, []⟩
  else
    match extractMemberBytes c pathToExtract with
    | .error e => ⟨.error e, fs, 1, []⟩
    | .ok fileContents =>
      let fullPathToExtract := path ++ "/" ++ pathToExtract
      ⟨.ok (),
        if fs.canOpen fullPathToExtract then fs.writeFile fullPathToExtract fileContents
        else fs,
        1, [pathToExtract]⟩

/-- The `for` loop of `ZipArchiver::extractAll` (zip_archiver.cpp lines
118-120): run `extract` for each listed entry name in order; a thrown error
propagates, ending the loop. -/
def extractAllLoop (c : Container) (path : String) :
    List ZipEntry → FS → ExtractOutcome
  | [], fs => ⟨.ok (), fs, 0, []⟩
  | entry :: rest, fs =>
    let o := ZipArchiver.extract c fs entry.name path
    match o.result with
    | .error err => ⟨.error err, o.fs, o.listReads, o.extracted⟩
    | .ok _ =>
      let o2 := extractAllLoop c path rest o.fs
      ⟨o2.result, o2.fs, o.listReads + o2.listReads, o.extracted ++ o2.extracted⟩

/-- `ZipArchiver::extractAll` (zip_archiver.cpp lines 110-121): validate the
destination (before any archive access), read the listing once, then extract
every listed entry in order via `extract` (which re-reads the listing each
time). -/
def ZipArchiver.extractAll (c : Container) (fs : FS) (path : String) :
    ExtractOutcome :=
  let isPathValid := fs.isDirectory path || !fs.pathExists path
  if !isPathValid then
    ⟨.error invalidDestinationError, fs, 0, []⟩
  else
    let entries := getAllEntriesInZipFile c
    let o := extractAllLoop c path entries fs
    ⟨o.result, o.fs, 1 + o.listReads, o.extracted⟩

/- ============================= Theorems ============================= -/

/-- Claim C9: for every package state, `isDebuggable` returns false. -/
theorem isDebuggable_always_false (s : ApkState) : isDebuggable s = false := rfl

/-- Claim C7: for every container and member name `m`, `contains` returns true
iff `m` appears among the names returned by listing the container's
entries. -/
theorem contains_iff_mem_listEntries (c : Container) (m : String) :
    ZipArchiver.contains c m = true ↔ m ∈ listEntryNames c := by
  cases c with
  | none => simp [ZipArchiver.contains, listEntryNames, getAllEntriesInZipFile]
  | some es =>
    simp [ZipArchiver.contains, listEntryNames, getAllEntriesInZipFile,
      List.any_eq_true, List.mem_map]

/-- Claim C1: `makeDebuggable` raises `MissingAndroidManifestException`
exactly when the manifest member is absent from the listing or its extracted
contents are empty; it raises `MalformedAndroidManifestException` exactly
when (the manifest being present and non-empty) the existence probe finds no
application start/end tag, or an invalid element occurs in the traversed
element sequence; in all other cases it completes without error. -/
theorem makeDebuggable_error_characterization (s : ApkState) :
    (makeDebuggable s = .error (.missingAndroidManifest s.apkPath) ↔
      (s.files.contains ANDROID_MANIFEST = false ∨ s.manifestContents = []))
    ∧ (makeDebuggable s = .error (.malformedAndroidManifest s.apkPath) ↔
      (s.files.contains ANDROID_MANIFEST = true ∧ s.manifestContents ≠ [] ∧
        (hasElement s.decodedElements ANDROID_MANIFEST_TAG_APPLICATION = false ∨
          s.decodedElements.any XmlElement.isInvalid = true)))
    ∧ (makeDebuggable s = .ok () ↔
      (s.files.contains ANDROID_MANIFEST = true ∧ s.manifestContents ≠ [] ∧
        hasElement s.decodedElements ANDROID_MANIFEST_TAG_APPLICATION = true ∧
        s.decodedElements.any XmlElement.isInvalid = false)) := by
  have ht := traverseElements_eq ⟨s.apkPath⟩ s.decodedElements
  cases hA : s.files.contains ANDROID_MANIFEST <;>
    cases hE : s.manifestContents.isEmpty <;>
      cases hH : hasElement s.decodedElements ANDROID_MANIFEST_TAG_APPLICATION <;>
        cases hI : s.decodedElements.any XmlElement.isInvalid <;>
          simp_all [makeDebuggable, List.isEmpty_iff]

/-- A package state whose decoded manifest holds both a start tag and an end
tag named `application`. -/
def apkStateBothTags : ApkState :=
  { apkPath := "p"
    files := ["AndroidManifest.xml"]
    manifestContents := [1]
    decodedElements := [.startTag "application", .endTag "application"] }

/-- A package state whose decoded manifest holds a start tag named
`application` but no matching end tag. -/
def apkStateStartOnly : ApkState :=
  { apkPath := "p"
    files := ["AndroidManifest.xml"]
    manifestContents := [1]
    decodedElements := [.startTag "application"] }

/-- Claim C2 counterexample: the visitor records no observations — two runs of
`makeDebuggable` whose element sequences differ in whether both application
start and end tags were observed terminate with identical outcomes, so the
operation does not end in a `TARGET_FOUND`/`TARGET_MISSING` state reflecting
such recorded observations (the code's visitor has no state fields and its
`visit` overloads are `const`). -/
theorem visitor_records_no_observations_counterexample :
    bothApplicationTagsObserved apkStateBothTags.decodedElements = true
    ∧ bothApplicationTagsObserved apkStateStartOnly.decodedElements = false
    ∧ makeDebuggable apkStateBothTags = .ok ()
    ∧ makeDebuggable apkStateStartOnly = .ok ()
    ∧ makeDebuggable apkStateBothTags = makeDebuggable apkStateStartOnly := by
  refine ⟨by decide, by decide, rfl, rfl, rfl⟩

/-- Claim C2 amended: during the full traversal the visitor maintains no
observation state; the traversal's outcome depends only on whether an invalid
element occurs (raising `MalformedAndroidManifestException` then, completing
silently otherwise), independently of whether start/end application tags were
observed. -/
theorem traversal_outcome_independent_of_observed_tags
    (v : MyBinaryXmlVisitor) (els : List XmlElement) :
    traverseElements v els =
      if els.any XmlElement.isInvalid then
        .error (.malformedAndroidManifest v.apkPath)
      else .ok () :=
  traverseElements_eq v els

/-- Helper: the member-byte extraction core errors with the member-not-found
message when no listed entry matches. -/
theorem extractMemberBytes_find_none (es : List ZipEntry) (m : String)
    (hfind : es.find? (fun e => e.name == m) = none) :
    extractMemberBytes (some es) m = .error memberNotFoundError := by
  simp [extractMemberBytes, getAllEntriesInZipFile, hfind]

/-- Helper: the member-byte extraction core on the first matching entry:
truncated-read error when the readable bytes fall short of the declared
uncompressed size, otherwise exactly that many bytes. -/
theorem extractMemberBytes_find_some (es : List ZipEntry) (m : String)
    (entry : ZipEntry) (hfind : es.find? (fun e => e.name == m) = some entry) :
    extractMemberBytes (some es) m =
      if entry.data.length < entry.uncompressedSize then
        .error truncatedReadError
      else .ok (entry.data.take entry.uncompressedSize) := by
  by_cases hlt : entry.data.length < entry.uncompressedSize
  · have hne : min entry.uncompressedSize entry.data.length ≠ entry.uncompressedSize := by
      omega
    simp [extractMemberBytes, getAllEntriesInZipFile, hfind, hlt, hne]
  · have heqm : min entry.uncompressedSize entry.data.length = entry.uncompressedSize := by
      omega
    simp [extractMemberBytes, getAllEntriesInZipFile, hfind, hlt, heqm]

/-- Claim C4: member-byte extraction, when it returns a buffer, returns one
whose length equals the first matching entry's declared uncompressed size;
and when the entry's readable bytes fall short of that declared size, it
raises the truncated-read error instead. -/
theorem extractMemberBytes_exact_size (c : Container) (m : String) :
    (∀ b, extractMemberBytes c m = .ok b →
      ∃ e, (getAllEntriesInZipFile c).find? (fun e => e.name == m) = some e ∧
        b.length = e.uncompressedSize)
    ∧ (∀ e, (getAllEntriesInZipFile c).find? (fun e => e.name == m) = some e →
        e.data.length < e.uncompressedSize →
        extractMemberBytes c m = .error truncatedReadError) := by
  cases c with
  | none =>
    refine ⟨fun b hb => ?_, fun e he _ => ?_⟩
    · exact absurd hb (by simp [extractMemberBytes, getAllEntriesInZipFile])
    · exact absurd he (by simp [getAllEntriesInZipFile])
  | some es =>
    refine ⟨fun b hb => ?_, fun e he hlt => ?_⟩
    · cases hfind : es.find? (fun e => e.name == m) with
      | none =>
        rw [extractMemberBytes_find_none es m hfind] at hb
        exact absurd hb (by simp)
      | some entry =>
        rw [extractMemberBytes_find_some es m entry hfind] at hb
        by_cases hlt : entry.data.length < entry.uncompressedSize
        · rw [if_pos hlt] at hb
          exact absurd hb (by simp)
        · rw [if_neg hlt] at hb
          refine ⟨entry, by simpa [getAllEntriesInZipFile] using hfind, ?_⟩
          have hb' : entry.data.take entry.uncompressedSize = b := by
            simpa using hb
          rw [← hb']
          simp
          omega
    · have he' : es.find? (fun e => e.name == m) = some e := by
        simpa [getAllEntriesInZipFile] using he
      rw [extractMemberBytes_find_some es m e he', if_pos hlt]

/-- A one-member container whose entry declares two bytes and holds them. -/
def zipTwoByteEntry : Container :=
  some [{ name := "m", uncompressedSize := 2, data := [5, 6] }]

/-- Witness for claim C4: on a concrete container the returned buffer's
length equals the found entry's declared uncompressed size. -/
theorem extractMemberBytes_exact_size_witness :
    ∃ e, (getAllEntriesInZipFile zipTwoByteEntry).find? (fun e => e.name == "m") = some e ∧
      ([5, 6] : List Nat).length = e.uncompressedSize :=
  (extractMemberBytes_exact_size zipTwoByteEntry "m").1 [5, 6] rfl

/-- Claim C5: for every container, member and destination path that exists and
is not a directory, both `extract` and `extractAll` raise the
invalid-destination error with zero listing reads performed and the
filesystem unchanged (zero files written). -/
theorem extract_invalidDestination_before_archive_access
    (c : Container) (fs : FS) (member dest : String)
    (hex : fs.pathExists dest = true) (hdir : fs.isDirectory dest = false) :
    ZipArchiver.extract c fs member dest = ⟨.error invalidDestinationError, fs, 0, []⟩
    ∧ ZipArchiver.extractAll c fs dest = ⟨.error invalidDestinationError, fs, 0, []⟩ := by
  unfold ZipArchiver.extract ZipArchiver.extractAll
  simp [hex, hdir]

/-- A filesystem holding a single plain file at path `"d"` (and no
directories), on which nothing can be opened for writing. -/
def fsWithPlainFile : FS :=
  { dirs := [], files := [("d", [0])], canOpen := fun _ => false }

/-- Witness for claim C5: a destination that is an existing plain file makes
both extraction operations fail with the invalid-destination error, zero
listing reads and no file written. -/
theorem extract_invalidDestination_witness :
    fsWithPlainFile.pathExists "d" = true
    ∧ fsWithPlainFile.isDirectory "d" = false
    ∧ (ZipArchiver.extract none fsWithPlainFile "m" "d"
        = ⟨.error invalidDestinationError, fsWithPlainFile, 0, []⟩
      ∧ ZipArchiver.extractAll none fsWithPlainFile "d"
        = ⟨.error invalidDestinationError, fsWithPlainFile, 0, []⟩) :=
  ⟨rfl, rfl,
    extract_invalidDestination_before_archive_access none fsWithPlainFile "m" "d" rfl rfl⟩

/-- Claim C10: when the destination file for an extracted member cannot be
opened for writing, `extract` still returns normally, with the filesystem
unchanged (no file produced) and no error raised. -/
theorem extract_silent_on_unopenable_destination
    (c : Container) (fs : FS) (member dest : String) (b : List Nat)
    (hdir : fs.isDirectory dest = true)
    (hbytes : extractMemberBytes c member = .ok b)
    (hopen : fs.canOpen (dest ++ "/" ++ member) = false) :
    ZipArchiver.extract c fs member dest = ⟨.ok (), fs, 1, [member]⟩ := by
  unfold ZipArchiver.extract
  simp [hdir, hbytes, hopen]

/-- A one-member container whose entry `"m"` is empty. -/
def zipEmptyEntry : Container :=
  some [{ name := "m", uncompressedSize := 0, data := [] }]

/-- A filesystem with one directory `"d"` on which no path can be opened for
writing. -/
def fsDirOnly : FS :=
  { dirs := ["d"], files := [], canOpen := fun _ => false }

/-- Witness for claim C10: extracting member `"m"` of a concrete container to
directory `"d"` on a filesystem where the destination file cannot be opened
returns normally and writes nothing. -/
theorem extract_silent_on_unopenable_destination_witness :
    fsDirOnly.isDirectory "d" = true
    ∧ extractMemberBytes zipEmptyEntry "m" = .ok []
    ∧ fsDirOnly.canOpen ("d" ++ "/" ++ "m") = false
    ∧ ZipArchiver.extract zipEmptyEntry fsDirOnly "m" "d" = ⟨.ok (), fsDirOnly, 1, ["m"]⟩ :=
  ⟨rfl, rfl, rfl,
    extract_silent_on_unopenable_destination zipEmptyEntry fsDirOnly "m" "d" [] rfl rfl rfl⟩

/-- Helper: on a stream that ends in plain eof (no read error), the chunked
copy loop writes the whole stream. -/
theorem writeChunksAux_no_readError (fuel : Nat) :
    ∀ data : List Nat, data.length ≤ fuel → writeChunksAux fuel data false = data := by
  induction fuel with
  | zero =>
    intro data h
    have hnil : data = [] := List.length_eq_zero.mp (Nat.le_zero.mp h)
    subst hnil
    rfl
  | succ fuel ih =>
    intro data h
    unfold writeChunksAux
    by_cases hlt : data.length < BUFSIZ
    · simp [hlt]
    · rw [if_neg hlt]
      have hb : BUFSIZ ≤ data.length := Nat.le_of_not_lt hlt
      have hd : (List.drop BUFSIZ data).length ≤ fuel := by
        rw [List.length_drop]
        have hbpos : 0 < BUFSIZ := by decide
        omega
      rw [ih (List.drop BUFSIZ data) hd]
      exact List.take_append_drop BUFSIZ data

/-- Helper: `writeStreamToOpenZipFile` delivers the entire source when the
stream has no read error. -/
theorem writeStreamToOpenZipFile_no_readError (source : InStream)
    (h : source.readError = false) :
    writeStreamToOpenZipFile source = source.data := by
  unfold writeStreamToOpenZipFile
  rw [h]
  exact writeChunksAux_no_readError source.data.length source.data le_rfl

/-- A stream that delivers one byte short of a full buffer and then reports a
hard read error rather than eof. -/
def errorStream : InStream := { data := [7], readError := true }

/-- Claim C8 counterexample: `add` on a stream that fails with a read error
returns normally, having written none of the stream's bytes — the new member
is committed empty and no error is raised. -/
theorem add_partial_write_counterexample :
    ZipArchiver.add none errorStream "m"
      = some [{ name := "m", uncompressedSize := 0, data := [] }]
    ∧ errorStream.data = [7]
    ∧ ({ name := "m", uncompressedSize := 0, data := [] } : ZipEntry).data ≠ errorStream.data := by
  exact ⟨rfl, rfl, by decide⟩

/-- Claim C8 amended: `add` returns normally even when the stream copy fails
part-way (the copy loop's status is discarded); only on a stream that ends in
plain eof is the entire stream written as the new member. -/
theorem add_clean_stream_writes_all (c : Container) (source : InStream) (m : String)
    (h : source.readError = false) :
    ZipArchiver.add c source m =
      some ((c.getD []) ++
        [{ name := m, uncompressedSize := source.data.length, data := source.data }]) := by
  unfold ZipArchiver.add
  rw [writeStreamToOpenZipFile_no_readError source h]

/-- A clean three-byte stream. -/
def cleanStream : InStream := { data := [7, 8, 9], readError := false }

/-- Witness for claim C8 amended: on a concrete clean stream, `add` appends a
member holding exactly the stream's bytes. -/
theorem add_clean_stream_writes_all_witness :
    cleanStream.readError = false
    ∧ ZipArchiver.add none cleanStream "m"
      = some [{ name := "m", uncompressedSize := 3, data := [7, 8, 9] }] :=
  ⟨rfl, add_clean_stream_writes_all none cleanStream "m" rfl⟩

/-- A container already holding a member `"a.txt"` with bytes `[1]`. -/
def dupNameZip : Container :=
  some [{ name := "a.txt", uncompressedSize := 1, data := [1] }]

/-- A clean stream delivering the byte `[2]`. -/
def dupNameSource : InStream := { data := [2], readError := false }

/-- Claim C3 counterexample: adding bytes `[2]` under a member name that the
container already holds with bytes `[1]`, then extracting that member's
bytes, yields the OLD bytes `[1]`, not the added stream — `add` appends a
second entry and extraction takes the first name match. -/
theorem add_extract_roundtrip_duplicate_counterexample :
    extractMemberBytes (ZipArchiver.add dupNameZip dupNameSource "a.txt") "a.txt"
      = .ok [1]
    ∧ dupNameSource.data = [2]
    ∧ ([1] : List Nat) ≠ [2] := by
  exact ⟨rfl, rfl, by decide⟩

/-- Claim C3 amended: for a member name not already present in the container
and a stream without read errors, `add` followed by member-byte extraction
returns bytes identical to the stream. -/
theorem add_extract_roundtrip_fresh_name (c : Container) (source : InStream) (m : String)
    (hclean : source.readError = false) (hfresh : m ∉ listEntryNames c) :
    extractMemberBytes (ZipArchiver.add c source m) m = .ok source.data := by
  rw [add_clean_stream_writes_all c source m hclean]
  have hnone : (c.getD []).find? (fun e => e.name == m) = none := by
    rw [List.find?_eq_none]
    intro e he
    simp only [beq_iff_eq]
    intro hem
    exact hfresh (by
      unfold listEntryNames getAllEntriesInZipFile
      exact List.mem_map.mpr ⟨e, he, hem⟩)
  have hfind :
      ((c.getD []) ++
          [({ name := m, uncompressedSize := source.data.length, data := source.data }
            : ZipEntry)]).find?
          (fun e => e.name == m) =
        some ({ name := m, uncompressedSize := source.data.length, data := source.data }
          : ZipEntry) := by
    rw [List.find?_append, hnone]
    simp [List.find?]
  rw [extractMemberBytes_find_some _ m _ hfind]
  simp

/-- A clean one-byte stream. -/
def freshStream : InStream := { data := [9], readError := false }

/-- Witness for claim C3 amended: round-trip through an initially absent
container and a fresh member name returns the stream's bytes. -/
theorem add_extract_roundtrip_fresh_name_witness :
    freshStream.readError = false
    ∧ "m" ∉ listEntryNames none
    ∧ extractMemberBytes (ZipArchiver.add none freshStream "m") "m" = .ok freshStream.data :=
  ⟨rfl, by decide, add_extract_roundtrip_fresh_name none freshStream "m" rfl (by decide)⟩

/-- Helper: extracting a member whose first matching listed entry is not
truncated, into a valid directory destination, performs exactly one listing
read, attempts the file write, and returns normally. -/
theorem extract_ok_shape (es : List ZipEntry) (fs : FS) (dest memberName : String)
    (entry : ZipEntry)
    (hdir : fs.isDirectory dest = true)
    (hfind : es.find? (fun x => x.name == memberName) = some entry)
    (hsz : entry.uncompressedSize ≤ entry.data.length) :
    ZipArchiver.extract (some es) fs memberName dest =
      ⟨.ok (),
        if fs.canOpen (dest ++ "/" ++ memberName) then
          fs.writeFile (dest ++ "/" ++ memberName) (entry.data.take entry.uncompressedSize)
        else fs,
        1, [memberName]⟩ := by
  unfold ZipArchiver.extract
  rw [extractMemberBytes_find_some es memberName entry hfind,
    if_neg (by omega : ¬entry.data.length < entry.uncompressedSize)]
  simp [hdir]

/-- Helper: a file write leaves the directory set unchanged. -/
theorem FS.isDirectory_writeFile (fs : FS) (p : String) (b : List Nat) (d : String) :
    (fs.writeFile p b).isDirectory d = fs.isDirectory d := rfl

/-- Helper: the `extractAll` loop over any sublist of the listed entries, when
every listed entry is non-truncated and the destination is a directory,
completes with one listing read per member and extracts the sublist's names
in order. -/
theorem extractAllLoop_all_ok (es : List ZipEntry) (dest : String)
    (hall : ∀ e ∈ es, e.uncompressedSize ≤ e.data.length) :
    ∀ (sub : List ZipEntry) (fs : FS), (∀ e ∈ sub, e ∈ es) →
      fs.isDirectory dest = true →
      (extractAllLoop (some es) dest sub fs).result = .ok ()
      ∧ (extractAllLoop (some es) dest sub fs).listReads = sub.length
      ∧ (extractAllLoop (some es) dest sub fs).extracted = sub.map (·.name) := by
  intro sub
  induction sub with
  | nil => exact fun fs _ _ => ⟨rfl, rfl, rfl⟩
  | cons e rest ih =>
    intro fs hsub hdir
    have hmem : e ∈ es := hsub e (by simp)
    have hsome : (es.find? fun x => x.name == e.name).isSome = true :=
      List.find?_isSome.mpr ⟨e, hmem, by simp⟩
    obtain ⟨entry, hfind⟩ := Option.isSome_iff_exists.mp hsome
    have hentrymem : entry ∈ es := List.mem_of_find?_eq_some hfind
    have hsz : entry.uncompressedSize ≤ entry.data.length := hall entry hentrymem
    have hex := extract_ok_shape es fs dest e.name entry hdir hfind hsz
    have hdir' :
        (if fs.canOpen (dest ++ "/" ++ e.name) then
          fs.writeFile (dest ++ "/" ++ e.name) (entry.data.take entry.uncompressedSize)
        else fs).isDirectory dest = true := by
      by_cases hco : fs.canOpen (dest ++ "/" ++ e.name) <;>
        simp [hco, FS.isDirectory_writeFile, hdir]
    obtain ⟨h1, h2, h3⟩ := ih _ (fun x hx => hsub x (List.mem_cons_of_mem e hx)) hdir'
    refine ⟨?_, ?_, ?_⟩
    · simp [extractAllLoop, hex, h1, h2, h3]
    · simp [extractAllLoop, hex, h1, h2, h3]
      omega
    · simp [extractAllLoop, hex, h1, h2, h3]

/-- Claim C6 amended: with a directory destination and no truncated entries,
`extractAll` returns normally having extracted precisely the members of the
listing in listing order — but it performs `1 + n` listing reads (one upfront
plus one per member inside `extract`), not exactly one. -/
theorem extractAll_listing_reads_and_order (es : List ZipEntry) (fs : FS) (dest : String)
    (hdir : fs.isDirectory dest = true)
    (hall : ∀ e ∈ es, e.uncompressedSize ≤ e.data.length) :
    (ZipArchiver.extractAll (some es) fs dest).result = .ok ()
    ∧ (ZipArchiver.extractAll (some es) fs dest).listReads = 1 + es.length
    ∧ (ZipArchiver.extractAll (some es) fs dest).extracted = es.map (·.name) := by
  obtain ⟨h1, h2, h3⟩ := extractAllLoop_all_ok es dest hall es fs (fun _ h => h) hdir
  refine ⟨?_, ?_, ?_⟩ <;>
    simp [ZipArchiver.extractAll, getAllEntriesInZipFile, hdir, h1, h2, h3]

/-- The single entry of the one-member container used below. -/
def oneEntry : ZipEntry := { name := "m", uncompressedSize := 1, data := [5] }

/-- A container holding exactly one member. -/
def oneEntryZip : Container := some [oneEntry]

/-- Claim C6 counterexample: on a container with a single member, `extractAll`
performs two listing reads (one upfront plus one inside the per-member
`extract`), refuting that the entry listing is read exactly once. -/
theorem extractAll_two_listing_reads_counterexample :
    (getAllEntriesInZipFile oneEntryZip).length = 1
    ∧ (ZipArchiver.extractAll oneEntryZip fsDirOnly "d").listReads = 2
    ∧ (2 : Nat) ≠ 1
    ∧ (ZipArchiver.extractAll oneEntryZip fsDirOnly "d").result = .ok () := by
  exact ⟨rfl, rfl, by decide, rfl⟩

/-- Witness for claim C6 amended: on the concrete one-member container the
operation succeeds, reads the listing `1 + 1` times, and extracts exactly the
listed member names in order. -/
theorem extractAll_listing_reads_and_order_witness :
    fsDirOnly.isDirectory "d" = true
    ∧ (ZipArchiver.extractAll (some [oneEntry]) fsDirOnly "d").result = .ok ()
    ∧ (ZipArchiver.extractAll (some [oneEntry]) fsDirOnly "d").listReads = 1 + [oneEntry].length
    ∧ (ZipArchiver.extractAll (some [oneEntry]) fsDirOnly "d").extracted
      = [oneEntry].map (·.name) :=
  ⟨rfl,
    (extractAll_listing_reads_and_order [oneEntry] fsDirOnly "d" rfl (by decide)).1,
    (extractAll_listing_reads_and_order [oneEntry] fsDirOnly "d" rfl (by decide)).2.1,
    (extractAll_listing_reads_and_order [oneEntry] fsDirOnly "d" rfl (by decide)).2.2⟩
